import Mathlib

/-!
Shallow embedding of the scroll-driven card-deck transform in
`src/frontend/components/CardStack.tsx`.

Scroll progress `v` and all visual attributes are modelled as rationals;
`Math.floor` is `Int.floor`, `Math.min`/`Math.max` are `min`/`max`.
The viewport width (`window.innerWidth`) and the card viewport height are
free parameters `vw` / `vh`.  The per-card content heights live in a list
`hs`, and JavaScript's `x || 0` coercion is modelled by `jsOrZero`.
-/

namespace CardStack

/-- `EXIT_THRESHOLD = 0.75`: 0–0.75 of a segment is the content phase,
0.75–1.0 the exit phase. -/
def EXIT_THRESHOLD : ℚ := 3 / 4

/-- `STACK_GAP_X = 12`: px rightward offset per deck position. -/
def STACK_GAP_X : ℚ := 12

/-- `STACK_GAP_Y = 10`: px downward offset per deck position. -/
def STACK_GAP_Y : ℚ := 10

/-- `STACK_SCALE_STEP = 0.03`: scale shrink per deck position. -/
def STACK_SCALE_STEP : ℚ := 3 / 100

/-- `STACK_OPACITY_STEP = 0.15`: opacity dim per deck position. -/
def STACK_OPACITY_STEP : ℚ := 15 / 100

/-- `const currentActive = Math.min(Math.floor(v * N), N - 1)`
(line 59 of `CardStack.tsx`). -/
def currentActiveOf (N : ℕ) (v : ℚ) : ℤ :=
  min ⌊v * (N : ℚ)⌋ ((N : ℤ) - 1)

/-- `const activeSegStart = currentActive / N` (line 63). -/
def activeSegStart (N : ℕ) (v : ℚ) : ℚ :=
  (currentActiveOf N v : ℚ) / (N : ℚ)

/-- `const activeSegEnd = (currentActive + 1) / N` (line 64). -/
def activeSegEnd (N : ℕ) (v : ℚ) : ℚ :=
  ((currentActiveOf N v : ℚ) + 1) / (N : ℚ)

/-- `activeSegStart + (activeSegEnd - activeSegStart) * EXIT_THRESHOLD`
(lines 65-66). -/
def activeExitStart (N : ℕ) (v : ℚ) : ℚ :=
  activeSegStart N v + (activeSegEnd N v - activeSegStart N v) * EXIT_THRESHOLD

/-- `v >= activeExitStart && v < activeSegEnd ? (v - activeExitStart) /
(activeSegEnd - activeExitStart) : 0` (lines 67-70). -/
def exitProgressOf (N : ℕ) (v : ℚ) : ℚ :=
  if activeExitStart N v ≤ v ∧ v < activeSegEnd N v then
    (v - activeExitStart N v) / (activeSegEnd N v - activeExitStart N v)
  else 0

/-- The record returned by `getDeckState` (line 72). -/
structure DeckState where
  rawDeckPos : ℤ
  currentActive : ℤ
  exitProgress : ℚ
  deriving Repr, DecidableEq

/-- `getDeckState(v)` for the card at `index` in a deck of `N` (lines 58-73). -/
def getDeckState (index : ℕ) (N : ℕ) (v : ℚ) : DeckState :=
  { rawDeckPos := (index : ℤ) - currentActiveOf N v
    currentActive := currentActiveOf N v
    exitProgress := exitProgressOf N v }

/-- The `cardX` transform (lines 76-101): exit slide, off-screen park for
exited cards, and the stacked/forward-shifting offset for queued cards. -/
def cardX (vw : ℚ) (index : ℕ) (N : ℕ) (v : ℚ) : ℚ :=
  let s := getDeckState index N v
  if (index : ℤ) = s.currentActive ∧ 0 < s.exitProgress then
    -s.exitProgress * (11 / 10) * vw
  else if s.rawDeckPos < 0 then
    -(11 / 10) * vw
  else
    let deckPos : ℚ :=
      if 0 < s.exitProgress ∧ 0 < s.rawDeckPos then
        (s.rawDeckPos : ℚ) - s.exitProgress
      else (s.rawDeckPos : ℚ)
    deckPos * STACK_GAP_X

/-- The `cardY` transform (lines 104-118). -/
def cardY (index : ℕ) (N : ℕ) (v : ℚ) : ℚ :=
  let s := getDeckState index N v
  if (index : ℤ) = s.currentActive ∧ 0 < s.exitProgress then 0
  else if s.rawDeckPos < 0 then 0
  else
    let deckPos : ℚ :=
      if 0 < s.exitProgress ∧ 0 < s.rawDeckPos then
        (s.rawDeckPos : ℚ) - s.exitProgress
      else (s.rawDeckPos : ℚ)
    deckPos * STACK_GAP_Y

/-- The `cardScale` transform (lines 121-135). -/
def cardScale (index : ℕ) (N : ℕ) (v : ℚ) : ℚ :=
  let s := getDeckState index N v
  if (index : ℤ) = s.currentActive ∧ 0 < s.exitProgress then
    1 - s.exitProgress * (5 / 100)
  else if s.rawDeckPos < 0 then 95 / 100
  else
    let deckPos : ℚ :=
      if 0 < s.exitProgress ∧ 0 < s.rawDeckPos then
        (s.rawDeckPos : ℚ) - s.exitProgress
      else (s.rawDeckPos : ℚ)
    max (88 / 100) (1 - deckPos * STACK_SCALE_STEP)

/-- The `cardOpacity` transform (lines 138-152). -/
def cardOpacity (index : ℕ) (N : ℕ) (v : ℚ) : ℚ :=
  let s := getDeckState index N v
  if (index : ℤ) = s.currentActive ∧ 0 < s.exitProgress then
    1 - s.exitProgress
  else if s.rawDeckPos < 0 then 0
  else
    let deckPos : ℚ :=
      if 0 < s.exitProgress ∧ 0 < s.rawDeckPos then
        (s.rawDeckPos : ℚ) - s.exitProgress
      else (s.rawDeckPos : ℚ)
    max (25 / 100) (1 - deckPos * STACK_OPACITY_STEP)

/-- The `cardRotate` transform (lines 155-162). -/
def cardRotate (index : ℕ) (N : ℕ) (v : ℚ) : ℚ :=
  let s := getDeckState index N v
  if (index : ℤ) = s.currentActive ∧ 0 < s.exitProgress then
    -3 * s.exitProgress
  else 0

/-- JavaScript `x || 0` on a possibly-missing number: `undefined` and `0`
are falsy and become `0`; every other number passes through. -/
def jsOrZero (o : Option ℚ) : ℚ :=
  match o with
  | none => 0
  | some h => if h = 0 then 0 else h

/-- `contentHeightsRef.current?.[index] || 0` (line 170). -/
def lookupHeight (hs : List ℚ) (i : ℕ) : ℚ := jsOrZero (hs.get? i)

/-- The `contentY` transform (lines 165-176): scrolls the active card's
inner content during the content phase of its own segment. -/
def contentY (hs : List ℚ) (vh : ℚ) (index N : ℕ) (v : ℚ) : ℚ :=
  let segStart : ℚ := (index : ℚ) / (N : ℚ)
  let segEnd : ℚ := ((index : ℚ) + 1) / (N : ℚ)
  let segLen := segEnd - segStart
  if v < segStart ∨ segEnd ≤ v then 0
  else
    let localProgress := (v - segStart) / segLen
    let contentPhaseProgress := min (localProgress / EXIT_THRESHOLD) 1
    let maxScroll := max 0 (lookupHeight hs index - vh);
    -contentPhaseProgress * maxScroll

/-- The z-index computed by the `useMotionValueEvent` handler
(lines 181-193). -/
def zIndexOf (index N : ℕ) (v : ℚ) : ℤ :=
  let s := getDeckState index N v
  if s.rawDeckPos < 0 then 0
  else if (index : ℤ) = s.currentActive ∧ 0 < s.exitProgress then (N : ℤ) + 1
  else (N : ℤ) - s.rawDeckPos

/-- `const newActive = Math.min(Math.floor(latest * N), N - 1)` (line 250). -/
def newActive (N : ℕ) (v : ℚ) : ℤ :=
  min ⌊v * (N : ℚ)⌋ ((N : ℤ) - 1)

/-- One step of the `activeIndex` state: `if (newActive >= 0 && newActive
!== activeIndex) setActiveIndex(newActive)` (lines 249-254). -/
def stepActive (N : ℕ) (a : ℤ) (v : ℚ) : ℤ :=
  let na := newActive N v
  if 0 ≤ na ∧ na ≠ a then na else a

/-- The `activeIndex` state after a sequence of scroll events, starting
from the initial `useState(0)` (line 247). -/
def runActive (N : ℕ) (vs : List ℚ) : ℤ :=
  vs.foldl (stepActive N) 0

/-- The normalized progress value `activeIndex / (N - 1)` passed to
`onProgressChange` when `N > 1` (lines 256-260); 0 otherwise. -/
def progressOf (N : ℕ) (a : ℤ) : ℚ :=
  if 1 < N then (a : ℚ) / ((N : ℚ) - 1) else 0

/-- What the progress effect (lines 256-260) emits: `some` of the
normalized progress when `N > 1`, nothing otherwise. -/
def emitProgress (N : ℕ) (a : ℤ) : Option ℚ :=
  if 1 < N then some ((a : ℚ) / ((N : ℚ) - 1)) else none

/-- `clamp(x, 0, N-1)` as used in the spec's description of the derived
active index. -/
def clampIdx (N : ℕ) (x : ℤ) : ℤ :=
  max 0 (min x ((N : ℤ) - 1))

/-! ### Basic lemmas about the deck-state helpers -/

@[simp] lemma getDeckState_rawDeckPos (i N : ℕ) (v : ℚ) :
    (getDeckState i N v).rawDeckPos = (i : ℤ) - currentActiveOf N v := rfl

@[simp] lemma getDeckState_currentActive (i N : ℕ) (v : ℚ) :
    (getDeckState i N v).currentActive = currentActiveOf N v := rfl

@[simp] lemma getDeckState_exitProgress (i N : ℕ) (v : ℚ) :
    (getDeckState i N v).exitProgress = exitProgressOf N v := rfl

lemma nposQ {N : ℕ} (hN : 1 ≤ N) : (0 : ℚ) < (N : ℚ) := by
  exact_mod_cast Nat.pos_of_ne_zero (by omega)

/-- The active segment's exit window has width `1/(4N)`. -/
lemma segEnd_sub_exitStart {N : ℕ} (hN : 1 ≤ N) (v : ℚ) :
    activeSegEnd N v - activeExitStart N v = 1 / (4 * (N : ℚ)) := by
  have hz := (nposQ hN).ne'
  unfold activeExitStart activeSegEnd activeSegStart EXIT_THRESHOLD
  field_simp
  ring

lemma exitWindow_pos {N : ℕ} (hN : 1 ≤ N) (v : ℚ) :
    0 < activeSegEnd N v - activeExitStart N v := by
  rw [segEnd_sub_exitStart hN v]
  positivity

/-- `exitProgress` is always in `[0, 1)`. -/
lemma exitProgress_nonneg {N : ℕ} (hN : 1 ≤ N) (v : ℚ) :
    0 ≤ exitProgressOf N v := by
  unfold exitProgressOf
  split_ifs with h
  · exact div_nonneg (by linarith [h.1]) (le_of_lt (exitWindow_pos hN v))
  · exact le_refl 0

lemma exitProgress_lt_one {N : ℕ} (hN : 1 ≤ N) (v : ℚ) :
    exitProgressOf N v < 1 := by
  unfold exitProgressOf
  split_ifs with h
  · rw [div_lt_one (exitWindow_pos hN v)]
    linarith [h.2]
  · exact one_pos

/-- If `v` lands in card `k`'s segment `[k/N, (k+1)/N)` with `k < N`, the
derived active index is `k`. -/
lemma currentActiveOf_eq {N k : ℕ} (hN : 1 ≤ N) (hk : k < N) {v : ℚ}
    (h1 : (k : ℚ) / (N : ℚ) ≤ v) (h2 : v < ((k : ℚ) + 1) / (N : ℚ)) :
    currentActiveOf N v = (k : ℤ) := by
  have hNp := nposQ hN
  have hfloor : ⌊v * (N : ℚ)⌋ = (k : ℤ) := by
    rw [Int.floor_eq_iff]
    constructor
    · push_cast
      calc (k : ℚ) = ((k : ℚ) / (N : ℚ)) * (N : ℚ) := by field_simp
      _ ≤ v * (N : ℚ) := by
          exact mul_le_mul_of_nonneg_right h1 (le_of_lt hNp)
    · push_cast
      calc v * (N : ℚ) < (((k : ℚ) + 1) / (N : ℚ)) * (N : ℚ) := by
            exact mul_lt_mul_of_pos_right h2 hNp
      _ = (k : ℚ) + 1 := by field_simp
  unfold currentActiveOf
  rw [hfloor]
  have : (k : ℤ) ≤ (N : ℤ) - 1 := by exact_mod_cast Nat.le_sub_one_of_lt hk
  exact min_eq_left this

/-- For `0 ≤ v`, the derived active index is at least 0 and at most `N-1`. -/
lemma currentActiveOf_mem {N : ℕ} (hN : 1 ≤ N) {v : ℚ} (h0 : 0 ≤ v) :
    0 ≤ currentActiveOf N v ∧ currentActiveOf N v ≤ (N : ℤ) - 1 := by
  unfold currentActiveOf
  constructor
  · apply le_min
    · exact Int.floor_nonneg.mpr (mul_nonneg h0 (by positivity))
    · omega
  · exact min_le_right _ _

/-! ### Branch-evaluation lemmas for the card transforms -/

lemma cardX_exiting (vw : ℚ) (i N : ℕ) (v : ℚ)
    (hi : (i : ℤ) = currentActiveOf N v) (he : 0 < exitProgressOf N v) :
    cardX vw i N v = -(exitProgressOf N v) * (11 / 10) * vw := by
  simp only [cardX, getDeckState_rawDeckPos, getDeckState_currentActive,
    getDeckState_exitProgress]
  rw [if_pos ⟨hi, he⟩]

lemma cardX_exited (vw : ℚ) (i N : ℕ) (v : ℚ)
    (hraw : (i : ℤ) - currentActiveOf N v < 0) :
    cardX vw i N v = -(11 / 10) * vw := by
  simp only [cardX, getDeckState_rawDeckPos, getDeckState_currentActive,
    getDeckState_exitProgress]
  rw [if_neg (by intro h; omega), if_pos hraw]

lemma cardX_noexit (vw : ℚ) (i N : ℕ) (v : ℚ)
    (he : exitProgressOf N v = 0) (hraw : 0 ≤ (i : ℤ) - currentActiveOf N v) :
    cardX vw i N v = ((i : ℤ) - currentActiveOf N v : ℤ) * STACK_GAP_X := by
  simp only [cardX, getDeckState_rawDeckPos, getDeckState_currentActive,
    getDeckState_exitProgress]
  rw [if_neg (by rw [he]; intro h; exact lt_irrefl 0 h.2),
    if_neg (by omega), if_neg (by rw [he]; intro h; exact lt_irrefl 0 h.1)]

lemma cardX_shift (vw : ℚ) (i N : ℕ) (v : ℚ)
    (he : 0 < exitProgressOf N v) (hraw : 0 < (i : ℤ) - currentActiveOf N v) :
    cardX vw i N v =
      (((i : ℤ) - currentActiveOf N v : ℤ) - exitProgressOf N v) * STACK_GAP_X := by
  simp only [cardX, getDeckState_rawDeckPos, getDeckState_currentActive,
    getDeckState_exitProgress]
  rw [if_neg (by intro h; omega), if_neg (by omega), if_pos ⟨he, hraw⟩]

lemma cardY_exiting (i N : ℕ) (v : ℚ)
    (hi : (i : ℤ) = currentActiveOf N v) (he : 0 < exitProgressOf N v) :
    cardY i N v = 0 := by
  simp only [cardY, getDeckState_rawDeckPos, getDeckState_currentActive,
    getDeckState_exitProgress]
  rw [if_pos ⟨hi, he⟩]

lemma cardY_exited (i N : ℕ) (v : ℚ)
    (hraw : (i : ℤ) - currentActiveOf N v < 0) :
    cardY i N v = 0 := by
  simp only [cardY, getDeckState_rawDeckPos, getDeckState_currentActive,
    getDeckState_exitProgress]
  rw [if_neg (by intro h; omega), if_pos hraw]

lemma cardY_noexit (i N : ℕ) (v : ℚ)
    (he : exitProgressOf N v = 0) (hraw : 0 ≤ (i : ℤ) - currentActiveOf N v) :
    cardY i N v = ((i : ℤ) - currentActiveOf N v : ℤ) * STACK_GAP_Y := by
  simp only [cardY, getDeckState_rawDeckPos, getDeckState_currentActive,
    getDeckState_exitProgress]
  rw [if_neg (by rw [he]; intro h; exact lt_irrefl 0 h.2),
    if_neg (by omega), if_neg (by rw [he]; intro h; exact lt_irrefl 0 h.1)]

lemma cardY_shift (i N : ℕ) (v : ℚ)
    (he : 0 < exitProgressOf N v) (hraw : 0 < (i : ℤ) - currentActiveOf N v) :
    cardY i N v =
      (((i : ℤ) - currentActiveOf N v : ℤ) - exitProgressOf N v) * STACK_GAP_Y := by
  simp only [cardY, getDeckState_rawDeckPos, getDeckState_currentActive,
    getDeckState_exitProgress]
  rw [if_neg (by intro h; omega), if_neg (by omega), if_pos ⟨he, hraw⟩]

lemma cardScale_exiting (i N : ℕ) (v : ℚ)
    (hi : (i : ℤ) = currentActiveOf N v) (he : 0 < exitProgressOf N v) :
    cardScale i N v = 1 - exitProgressOf N v * (5 / 100) := by
  simp only [cardScale, getDeckState_rawDeckPos, getDeckState_currentActive,
    getDeckState_exitProgress]
  rw [if_pos ⟨hi, he⟩]

lemma cardScale_exited (i N : ℕ) (v : ℚ)
    (hraw : (i : ℤ) - currentActiveOf N v < 0) :
    cardScale i N v = 95 / 100 := by
  simp only [cardScale, getDeckState_rawDeckPos, getDeckState_currentActive,
    getDeckState_exitProgress]
  rw [if_neg (by intro h; omega), if_pos hraw]

lemma cardScale_noexit (i N : ℕ) (v : ℚ)
    (he : exitProgressOf N v = 0) (hraw : 0 ≤ (i : ℤ) - currentActiveOf N v) :
    cardScale i N v =
      max (88 / 100) (1 - ((i : ℤ) - currentActiveOf N v : ℤ) * STACK_SCALE_STEP) := by
  simp only [cardScale, getDeckState_rawDeckPos, getDeckState_currentActive,
    getDeckState_exitProgress]
  rw [if_neg (by rw [he]; intro h; exact lt_irrefl 0 h.2),
    if_neg (by omega), if_neg (by rw [he]; intro h; exact lt_irrefl 0 h.1)]

lemma cardScale_shift (i N : ℕ) (v : ℚ)
    (he : 0 < exitProgressOf N v) (hraw : 0 < (i : ℤ) - currentActiveOf N v) :
    cardScale i N v =
      max (88 / 100)
        (1 - (((i : ℤ) - currentActiveOf N v : ℤ) - exitProgressOf N v) * STACK_SCALE_STEP) := by
  simp only [cardScale, getDeckState_rawDeckPos, getDeckState_currentActive,
    getDeckState_exitProgress]
  rw [if_neg (by intro h; omega), if_neg (by omega), if_pos ⟨he, hraw⟩]

lemma cardOpacity_exiting (i N : ℕ) (v : ℚ)
    (hi : (i : ℤ) = currentActiveOf N v) (he : 0 < exitProgressOf N v) :
    cardOpacity i N v = 1 - exitProgressOf N v := by
  simp only [cardOpacity, getDeckState_rawDeckPos, getDeckState_currentActive,
    getDeckState_exitProgress]
  rw [if_pos ⟨hi, he⟩]

lemma cardOpacity_exited (i N : ℕ) (v : ℚ)
    (hraw : (i : ℤ) - currentActiveOf N v < 0) :
    cardOpacity i N v = 0 := by
  simp only [cardOpacity, getDeckState_rawDeckPos, getDeckState_currentActive,
    getDeckState_exitProgress]
  rw [if_neg (by intro h; omega), if_pos hraw]

lemma cardOpacity_noexit (i N : ℕ) (v : ℚ)
    (he : exitProgressOf N v = 0) (hraw : 0 ≤ (i : ℤ) - currentActiveOf N v) :
    cardOpacity i N v =
      max (25 / 100) (1 - ((i : ℤ) - currentActiveOf N v : ℤ) * STACK_OPACITY_STEP) := by
  simp only [cardOpacity, getDeckState_rawDeckPos, getDeckState_currentActive,
    getDeckState_exitProgress]
  rw [if_neg (by rw [he]; intro h; exact lt_irrefl 0 h.2),
    if_neg (by omega), if_neg (by rw [he]; intro h; exact lt_irrefl 0 h.1)]

lemma cardOpacity_shift (i N : ℕ) (v : ℚ)
    (he : 0 < exitProgressOf N v) (hraw : 0 < (i : ℤ) - currentActiveOf N v) :
    cardOpacity i N v =
      max (25 / 100)
        (1 - (((i : ℤ) - currentActiveOf N v : ℤ) - exitProgressOf N v) * STACK_OPACITY_STEP) := by
  simp only [cardOpacity, getDeckState_rawDeckPos, getDeckState_currentActive,
    getDeckState_exitProgress]
  rw [if_neg (by intro h; omega), if_neg (by omega), if_pos ⟨he, hraw⟩]

lemma cardRotate_exiting (i N : ℕ) (v : ℚ)
    (hi : (i : ℤ) = currentActiveOf N v) (he : 0 < exitProgressOf N v) :
    cardRotate i N v = -3 * exitProgressOf N v := by
  simp only [cardRotate, getDeckState_rawDeckPos, getDeckState_currentActive,
    getDeckState_exitProgress]
  rw [if_pos ⟨hi, he⟩]

lemma cardRotate_rest (i N : ℕ) (v : ℚ)
    (h : ¬((i : ℤ) = currentActiveOf N v ∧ 0 < exitProgressOf N v)) :
    cardRotate i N v = 0 := by
  simp only [cardRotate, getDeckState_rawDeckPos, getDeckState_currentActive,
    getDeckState_exitProgress]
  rw [if_neg h]

-- Sanity checks on concrete values (spec scenarios).
example : currentActiveOf 5 (19/100) = 0 := by
  norm_num [currentActiveOf]
example : exitProgressOf 5 (19/100) = 4/5 := by
  norm_num [exitProgressOf, activeExitStart, activeSegStart, activeSegEnd,
    currentActiveOf, EXIT_THRESHOLD]
example : cardOpacity 0 5 (19/100) = 1/5 := by
  norm_num [cardOpacity, getDeckState, exitProgressOf, activeExitStart,
    activeSegStart, activeSegEnd, currentActiveOf, EXIT_THRESHOLD,
    STACK_OPACITY_STEP]
example : cardX 1000 0 5 (19/100) = -880 := by
  norm_num [cardX, getDeckState, exitProgressOf, activeExitStart,
    activeSegStart, activeSegEnd, currentActiveOf, EXIT_THRESHOLD,
    STACK_GAP_X]
example : cardX 1000 2 5 (1/10) = 24 := by
  norm_num [cardX, getDeckState, exitProgressOf, activeExitStart,
    activeSegStart, activeSegEnd, currentActiveOf, EXIT_THRESHOLD,
    STACK_GAP_X]
example : cardY 2 5 (1/10) = 20 := by
  norm_num [cardY, getDeckState, exitProgressOf, activeExitStart,
    activeSegStart, activeSegEnd, currentActiveOf, EXIT_THRESHOLD,
    STACK_GAP_Y]
example : cardScale 2 5 (1/10) = 94/100 := by
  norm_num [cardScale, getDeckState, exitProgressOf, activeExitStart,
    activeSegStart, activeSegEnd, currentActiveOf, EXIT_THRESHOLD,
    STACK_SCALE_STEP]
example : cardOpacity 2 5 (1/10) = 7/10 := by
  norm_num [cardOpacity, getDeckState, exitProgressOf, activeExitStart,
    activeSegStart, activeSegEnd, currentActiveOf, EXIT_THRESHOLD,
    STACK_OPACITY_STEP]
example : currentActiveOf 5 (-(1/5)) = -1 := by
  norm_num [currentActiveOf]
example : exitProgressOf 5 1 = 0 := by
  norm_num [exitProgressOf, activeExitStart, activeSegStart, activeSegEnd,
    currentActiveOf, EXIT_THRESHOLD]
example : cardOpacity 4 5 1 = 1 := by
  norm_num [cardOpacity, getDeckState, exitProgressOf, activeExitStart,
    activeSegStart, activeSegEnd, currentActiveOf, EXIT_THRESHOLD,
    STACK_OPACITY_STEP]
example : zIndexOf 0 5 (19/100) = 6 := by
  norm_num [zIndexOf, getDeckState, exitProgressOf, activeExitStart,
    activeSegStart, activeSegEnd, currentActiveOf, EXIT_THRESHOLD]

/-! ### Further helper lemmas -/

lemma currentActiveOf_at_zero {N : ℕ} (hN : 1 ≤ N) :
    currentActiveOf N 0 = 0 := by
  have h := currentActiveOf_eq (k := 0) hN (by omega) (v := 0)
    (by simp) (by positivity)
  simpa using h

lemma activeSegEnd_at_zero {N : ℕ} (hN : 1 ≤ N) :
    activeSegEnd N 0 = 1 / (N : ℚ) := by
  unfold activeSegEnd
  rw [currentActiveOf_at_zero hN]
  norm_num

lemma activeExitStart_at_zero {N : ℕ} (hN : 1 ≤ N) :
    activeExitStart N 0 = 3 / (4 * (N : ℚ)) := by
  have h := segEnd_sub_exitStart hN 0
  rw [activeSegEnd_at_zero hN] at h
  have hNp := nposQ hN
  have h2 : activeExitStart N 0 = 1 / (N : ℚ) - 1 / (4 * (N : ℚ)) := by
    linarith
  rw [h2]
  field_simp
  ring

lemma exitProgress_at_zero {N : ℕ} (hN : 1 ≤ N) :
    exitProgressOf N 0 = 0 := by
  unfold exitProgressOf
  rw [if_neg]
  rw [activeExitStart_at_zero hN]
  intro h
  have hNp := nposQ hN
  have : (0 : ℚ) < 3 / (4 * (N : ℚ)) := by positivity
  linarith [h.1]

/-- Opacity is always within `[0, 1]`, in every branch. -/
lemma cardOpacity_bounds {i N : ℕ} (hN : 1 ≤ N) (v : ℚ) :
    0 ≤ cardOpacity i N v ∧ cardOpacity i N v ≤ 1 := by
  have he0 := exitProgress_nonneg hN v
  have he1 := exitProgress_lt_one hN v
  by_cases h1 : (i : ℤ) = currentActiveOf N v ∧ 0 < exitProgressOf N v
  · rw [cardOpacity_exiting i N v h1.1 h1.2]
    constructor <;> linarith
  · by_cases h2 : (i : ℤ) - currentActiveOf N v < 0
    · rw [cardOpacity_exited i N v h2]; norm_num
    · push_neg at h2
      by_cases h3 : 0 < exitProgressOf N v
      · have hraw : 0 < (i : ℤ) - currentActiveOf N v := by
          rcases lt_or_eq_of_le h2 with h | h
          · exact h
          · exact absurd ⟨by omega, h3⟩ h1
        rw [cardOpacity_shift i N v h3 hraw]
        have hraw1 : (1 : ℚ) ≤ (((i : ℤ) - currentActiveOf N v : ℤ) : ℚ) := by
          exact_mod_cast hraw
        refine ⟨le_trans (by norm_num) (le_max_left _ _), max_le (by norm_num) ?_⟩
        unfold STACK_OPACITY_STEP
        nlinarith
      · push_neg at h3
        have he : exitProgressOf N v = 0 := le_antisymm h3 he0
        rw [cardOpacity_noexit i N v he h2]
        have hc : (0 : ℚ) ≤ (((i : ℤ) - currentActiveOf N v : ℤ) : ℚ) := by
          exact_mod_cast h2
        refine ⟨le_trans (by norm_num) (le_max_left _ _), max_le (by norm_num) ?_⟩
        unfold STACK_OPACITY_STEP
        nlinarith

/-- Scale never falls below the documented floor `0.88`, in every branch. -/
lemma cardScale_floor {i N : ℕ} (hN : 1 ≤ N) (v : ℚ) :
    88 / 100 ≤ cardScale i N v := by
  have he0 := exitProgress_nonneg hN v
  have he1 := exitProgress_lt_one hN v
  by_cases h1 : (i : ℤ) = currentActiveOf N v ∧ 0 < exitProgressOf N v
  · rw [cardScale_exiting i N v h1.1 h1.2]
    nlinarith
  · by_cases h2 : (i : ℤ) - currentActiveOf N v < 0
    · rw [cardScale_exited i N v h2]; norm_num
    · push_neg at h2
      by_cases h3 : 0 < exitProgressOf N v
      · have hraw : 0 < (i : ℤ) - currentActiveOf N v := by
          rcases lt_or_eq_of_le h2 with h | h
          · exact h
          · exact absurd ⟨by omega, h3⟩ h1
        rw [cardScale_shift i N v h3 hraw]
        exact le_max_left _ _
      · push_neg at h3
        have he : exitProgressOf N v = 0 := le_antisymm h3 he0
        rw [cardScale_noexit i N v he h2]
        exact le_max_left _ _

lemma zIndexOf_exited (i N : ℕ) (v : ℚ)
    (hraw : (i : ℤ) - currentActiveOf N v < 0) :
    zIndexOf i N v = 0 := by
  simp only [zIndexOf, getDeckState_rawDeckPos, getDeckState_currentActive,
    getDeckState_exitProgress]
  rw [if_pos hraw]

lemma zIndexOf_exiting (i N : ℕ) (v : ℚ)
    (hi : (i : ℤ) = currentActiveOf N v) (he : 0 < exitProgressOf N v) :
    zIndexOf i N v = (N : ℤ) + 1 := by
  simp only [zIndexOf, getDeckState_rawDeckPos, getDeckState_currentActive,
    getDeckState_exitProgress]
  rw [if_neg (by omega), if_pos ⟨hi, he⟩]

lemma zIndexOf_queued (i N : ℕ) (v : ℚ)
    (hraw : 0 ≤ (i : ℤ) - currentActiveOf N v)
    (h : ¬((i : ℤ) = currentActiveOf N v ∧ 0 < exitProgressOf N v)) :
    zIndexOf i N v = (N : ℤ) - ((i : ℤ) - currentActiveOf N v) := by
  simp only [zIndexOf, getDeckState_rawDeckPos, getDeckState_currentActive,
    getDeckState_exitProgress]
  rw [if_neg (by omega), if_neg h]

/-! ### Claim C1 -/

/-- Claim C1: for every deck size `N ≥ 1` and scroll progress `v ∈ [0,1]`,
the derived active index — `currentActive` inside `getDeckState` and the
`activeIndex` update performed by `CardStack` (`stepActive`) — equals
`clamp(⌊v*N⌋, 0, N-1)`, and for fixed `N` it is monotonically
non-decreasing in `v`. -/
theorem C1_activeIndex_clamp_and_monotone (N : ℕ) (hN : 1 ≤ N) (v w : ℚ)
    (hv0 : 0 ≤ v) (hv1 : v ≤ 1) (hw0 : 0 ≤ w) (hw1 : w ≤ 1) (hvw : v ≤ w)
    (a : ℤ) :
    currentActiveOf N v = clampIdx N ⌊v * (N : ℚ)⌋ ∧
    (getDeckState 0 N v).currentActive = clampIdx N ⌊v * (N : ℚ)⌋ ∧
    stepActive N a v = clampIdx N ⌊v * (N : ℚ)⌋ ∧
    currentActiveOf N v ≤ currentActiveOf N w := by
  have hNQ : (0 : ℚ) ≤ (N : ℚ) := by positivity
  have hfl : (0 : ℤ) ≤ ⌊v * (N : ℚ)⌋ :=
    Int.floor_nonneg.mpr (mul_nonneg hv0 hNQ)
  have hclamp : currentActiveOf N v = clampIdx N ⌊v * (N : ℚ)⌋ := by
    unfold clampIdx currentActiveOf
    omega
  refine ⟨hclamp, hclamp, ?_, ?_⟩
  · unfold stepActive newActive clampIdx
    have hmin : (0 : ℤ) ≤ min ⌊v * (N : ℚ)⌋ ((N : ℤ) - 1) := by omega
    dsimp only
    split_ifs with h
    · omega
    · push_neg at h
      have := h hmin
      omega
  · unfold currentActiveOf
    have hle : ⌊v * (N : ℚ)⌋ ≤ ⌊w * (N : ℚ)⌋ :=
      Int.floor_le_floor (mul_le_mul_of_nonneg_right hvw hNQ)
    omega

/-- Witness for C1 at `N = 5`, `v = 3/10`, `w = 1/2`, `a = 0`. -/
theorem C1_activeIndex_clamp_and_monotone_witness :
    1 ≤ 5 ∧ (0 : ℚ) ≤ 3/10 ∧ (3/10 : ℚ) ≤ 1 ∧ (0 : ℚ) ≤ 1/2 ∧
    (1/2 : ℚ) ≤ 1 ∧ (3/10 : ℚ) ≤ 1/2 ∧
    (currentActiveOf 5 (3/10) = clampIdx 5 ⌊(3/10 : ℚ) * (5 : ℚ)⌋ ∧
     (getDeckState 0 5 (3/10)).currentActive = clampIdx 5 ⌊(3/10 : ℚ) * (5 : ℚ)⌋ ∧
     stepActive 5 0 (3/10) = clampIdx 5 ⌊(3/10 : ℚ) * (5 : ℚ)⌋ ∧
     currentActiveOf 5 (3/10) ≤ currentActiveOf 5 (1/2)) :=
  ⟨by norm_num, by norm_num, by norm_num, by norm_num, by norm_num, by norm_num,
   C1_activeIndex_clamp_and_monotone 5 (by norm_num) (3/10) (1/2)
     (by norm_num) (by norm_num) (by norm_num) (by norm_num) (by norm_num) 0⟩

/-! ### Claim C2 -/

/-- Claim C2: `exitProgress` is the linear ramp
`(v - activeExitStart) / (activeSegEnd - activeExitStart)` inside the
active segment's exit phase and `0` outside it, staying in `[0, 1)`;
the active card's opacity is `1 - exitProgress`, its rotation is
`-3 * exitProgress` degrees, and its horizontal offset is
`-exitProgress * 1.1 * vw`.  Concretely, for `N = 5` at `v = 0.19`,
card 0 has `exitProgress = 0.8`, opacity `0.2`, rotation `-2.4`, and
offset `-880` at `vw = 1000`. -/
theorem C2_exit_phase_ramp (N : ℕ) (hN : 1 ≤ N) (v vw : ℚ) :
    (activeExitStart N v ≤ v ∧ v < activeSegEnd N v →
      exitProgressOf N v =
        (v - activeExitStart N v) / (activeSegEnd N v - activeExitStart N v) ∧
      0 ≤ exitProgressOf N v ∧ exitProgressOf N v < 1) ∧
    (¬(activeExitStart N v ≤ v ∧ v < activeSegEnd N v) →
      exitProgressOf N v = 0) ∧
    (∀ i : ℕ, (i : ℤ) = currentActiveOf N v →
      cardOpacity i N v = 1 - exitProgressOf N v ∧
      cardRotate i N v = -3 * exitProgressOf N v ∧
      cardX vw i N v = -(exitProgressOf N v) * (11/10) * vw) ∧
    (exitProgressOf 5 (19/100) = 4/5 ∧ cardOpacity 0 5 (19/100) = 1/5 ∧
      cardRotate 0 5 (19/100) = -(12/5) ∧ cardX 1000 0 5 (19/100) = -880) := by
  refine ⟨?_, ?_, ?_, ?_, ?_, ?_, ?_⟩
  · intro h
    refine ⟨?_, exitProgress_nonneg hN v, exitProgress_lt_one hN v⟩
    unfold exitProgressOf
    rw [if_pos h]
  · intro h
    unfold exitProgressOf
    rw [if_neg h]
  · intro i hi
    have h0 := exitProgress_nonneg hN v
    rcases eq_or_lt_of_le h0 with he | he
    · have he' : exitProgressOf N v = 0 := he.symm
      have hraw : (0 : ℤ) ≤ (i : ℤ) - currentActiveOf N v := by omega
      have hraw0 : (i : ℤ) - currentActiveOf N v = 0 := by omega
      refine ⟨?_, ?_, ?_⟩
      · rw [cardOpacity_noexit i N v he' hraw, hraw0, he']
        norm_num
      · rw [cardRotate_rest i N v (by rw [he']; intro h; exact lt_irrefl 0 h.2), he']
        ring
      · rw [cardX_noexit vw i N v he' hraw, hraw0, he']
        norm_num
    · exact ⟨cardOpacity_exiting i N v hi he, cardRotate_exiting i N v hi he,
        cardX_exiting vw i N v hi he⟩
  · norm_num [exitProgressOf, activeExitStart, activeSegStart, activeSegEnd,
      currentActiveOf, EXIT_THRESHOLD]
  · norm_num [cardOpacity, getDeckState, exitProgressOf, activeExitStart,
      activeSegStart, activeSegEnd, currentActiveOf, EXIT_THRESHOLD,
      STACK_OPACITY_STEP]
  · norm_num [cardRotate, getDeckState, exitProgressOf, activeExitStart,
      activeSegStart, activeSegEnd, currentActiveOf, EXIT_THRESHOLD]
  · norm_num [cardX, getDeckState, exitProgressOf, activeExitStart,
      activeSegStart, activeSegEnd, currentActiveOf, EXIT_THRESHOLD,
      STACK_GAP_X]

/-- Witness for C2 at `N = 5`, `v = 19/100`, `vw = 1000`: the exit-phase
hypothesis of the third conjunct is discharged at `i = 0`. -/
theorem C2_exit_phase_ramp_witness :
    1 ≤ 5 ∧ ((0 : ℤ) = currentActiveOf 5 (19/100)) ∧
    (cardOpacity 0 5 (19/100) = 1 - exitProgressOf 5 (19/100) ∧
     cardRotate 0 5 (19/100) = -3 * exitProgressOf 5 (19/100) ∧
     cardX 1000 0 5 (19/100) =
       -(exitProgressOf 5 (19/100)) * (11/10) * 1000) :=
  ⟨by norm_num, by norm_num [currentActiveOf],
   (C2_exit_phase_ramp 5 (by norm_num) (19/100) 1000).2.2.1 0
     (by norm_num [currentActiveOf])⟩

/-! ### Claim C3 -/

/-- Claim C3 as stated is false: a queued in-deck card at
`rawDeckPos = 2` with no exit in progress (`N = 5`, `v = 0.1`) has
horizontal offset `2 * STACK_GAP_X = 24` pixels, not `0`. -/
theorem C3_counterexample :
    0 < (getDeckState 2 5 (1/10)).rawDeckPos ∧
    exitProgressOf 5 (1/10) = 0 ∧
    cardX 1000 2 5 (1/10) = 24 ∧
    ¬(cardX 1000 2 5 (1/10) = 0) := by
  refine ⟨?_, ?_, ?_, ?_⟩
  · norm_num [getDeckState, currentActiveOf]
  · norm_num [exitProgressOf, activeExitStart, activeSegStart, activeSegEnd,
      currentActiveOf, EXIT_THRESHOLD]
  · norm_num [cardX, getDeckState, exitProgressOf, activeExitStart,
      activeSegStart, activeSegEnd, currentActiveOf, EXIT_THRESHOLD,
      STACK_GAP_X]
  · norm_num [cardX, getDeckState, exitProgressOf, activeExitStart,
      activeSegStart, activeSegEnd, currentActiveOf, EXIT_THRESHOLD,
      STACK_GAP_X]

/-- Claim C3, amended: for every queued in-deck card with
`rawDeckPos = d > 0` while no exit is in progress, its horizontal offset
is `d * STACK_GAP_X` (not 0), its vertical offset is `d * STACK_GAP_Y`,
its scale is `max(0.88, 1 - d * STACK_SCALE_STEP)`, and its opacity is
`max(0.25, 1 - d * STACK_OPACITY_STEP)`. -/
theorem C3_queued_card_attributes (vw : ℚ) (i N : ℕ) (hN : 1 ≤ N) (v : ℚ)
    (hd : 0 < (getDeckState i N v).rawDeckPos)
    (he : exitProgressOf N v = 0) :
    cardX vw i N v = ((getDeckState i N v).rawDeckPos : ℚ) * STACK_GAP_X ∧
    cardY i N v = ((getDeckState i N v).rawDeckPos : ℚ) * STACK_GAP_Y ∧
    cardScale i N v =
      max (88/100) (1 - ((getDeckState i N v).rawDeckPos : ℚ) * STACK_SCALE_STEP) ∧
    cardOpacity i N v =
      max (25/100) (1 - ((getDeckState i N v).rawDeckPos : ℚ) * STACK_OPACITY_STEP) := by
  simp only [getDeckState_rawDeckPos] at hd ⊢
  exact ⟨cardX_noexit vw i N v he (le_of_lt hd),
    cardY_noexit i N v he (le_of_lt hd),
    cardScale_noexit i N v he (le_of_lt hd),
    cardOpacity_noexit i N v he (le_of_lt hd)⟩

/-- Witness for the amended C3 at `N = 5`, `v = 1/10`, `i = 2`,
`vw = 1000` (the spec's `rawDeckPos = 2` scenario). -/
theorem C3_queued_card_attributes_witness :
    1 ≤ 5 ∧ 0 < (getDeckState 2 5 (1/10)).rawDeckPos ∧
    exitProgressOf 5 (1/10) = 0 ∧
    (cardX 1000 2 5 (1/10) = ((getDeckState 2 5 (1/10)).rawDeckPos : ℚ) * STACK_GAP_X ∧
     cardY 2 5 (1/10) = ((getDeckState 2 5 (1/10)).rawDeckPos : ℚ) * STACK_GAP_Y ∧
     cardScale 2 5 (1/10) =
       max (88/100) (1 - ((getDeckState 2 5 (1/10)).rawDeckPos : ℚ) * STACK_SCALE_STEP) ∧
     cardOpacity 2 5 (1/10) =
       max (25/100) (1 - ((getDeckState 2 5 (1/10)).rawDeckPos : ℚ) * STACK_OPACITY_STEP)) :=
  ⟨by norm_num, by norm_num [getDeckState, currentActiveOf],
   by norm_num [exitProgressOf, activeExitStart, activeSegStart, activeSegEnd,
     currentActiveOf, EXIT_THRESHOLD],
   C3_queued_card_attributes 1000 2 5 (by norm_num) (1/10)
     (by norm_num [getDeckState, currentActiveOf])
     (by norm_num [exitProgressOf, activeExitStart, activeSegStart, activeSegEnd,
       currentActiveOf, EXIT_THRESHOLD])⟩

/-! ### Claim C4 -/

/-- Claim C4: at `v = 0`, card 0 is active with opacity 1, scale 1, zero
offsets and zero rotation; at `v = 1` with `N = 5`, cards 0-3 carry the
fully-exited attributes (opacity 0, horizontal offset `-1.1 * vw`) and
card 4 is the active card sitting exactly at the boundary of its own exit
phase with well-defined resting attributes — no card is in an undefined
state at `v = 1`. -/
theorem C4_scroll_boundaries (N : ℕ) (hN : 1 ≤ N) (vw : ℚ) :
    (getDeckState 0 N 0).rawDeckPos = 0 ∧ exitProgressOf N 0 = 0 ∧
    cardOpacity 0 N 0 = 1 ∧ cardScale 0 N 0 = 1 ∧ cardX vw 0 N 0 = 0 ∧
    cardY 0 N 0 = 0 ∧ cardRotate 0 N 0 = 0 ∧
    (∀ i : ℕ, i < 4 → cardOpacity i 5 1 = 0 ∧ cardX vw i 5 1 = -(11/10) * vw) ∧
    (getDeckState 4 5 1).rawDeckPos = 0 ∧ exitProgressOf 5 1 = 0 ∧
    cardOpacity 4 5 1 = 1 ∧ cardScale 4 5 1 = 1 ∧ cardX vw 4 5 1 = 0 ∧
    cardY 4 5 1 = 0 ∧ cardRotate 4 5 1 = 0 := by
  have hca := currentActiveOf_at_zero hN
  have he := exitProgress_at_zero hN
  have hraw : (0 : ℤ) ≤ (0 : ℤ) - currentActiveOf N 0 := by omega
  have hca5 : currentActiveOf 5 (1 : ℚ) = 4 := by norm_num [currentActiveOf]
  have he5 : exitProgressOf 5 (1 : ℚ) = 0 := by
    norm_num [exitProgressOf, activeExitStart, activeSegStart, activeSegEnd,
      currentActiveOf, EXIT_THRESHOLD]
  refine ⟨by simp [hca], he, ?_, ?_, ?_, ?_, ?_, ?_, ?_, ?_, ?_, ?_, ?_, ?_, ?_⟩
  · rw [cardOpacity_noexit 0 N 0 he hraw, hca]
    norm_num
  · rw [cardScale_noexit 0 N 0 he hraw, hca]
    norm_num
  · rw [cardX_noexit vw 0 N 0 he hraw, hca]
    norm_num
  · rw [cardY_noexit 0 N 0 he hraw, hca]
    norm_num
  · exact cardRotate_rest 0 N 0 (by rw [he]; intro h; exact lt_irrefl 0 h.2)
  · intro i hi
    have hexit : (i : ℤ) - currentActiveOf 5 (1 : ℚ) < 0 := by
      rw [hca5]; omega
    exact ⟨cardOpacity_exited i 5 1 hexit, cardX_exited vw i 5 1 hexit⟩
  · simp [hca5]
  · exact he5
  · rw [cardOpacity_noexit 4 5 1 he5 (by rw [hca5]; norm_num), hca5]
    norm_num
  · rw [cardScale_noexit 4 5 1 he5 (by rw [hca5]; norm_num), hca5]
    norm_num
  · rw [cardX_noexit vw 4 5 1 he5 (by rw [hca5]; norm_num), hca5]
    norm_num
  · rw [cardY_noexit 4 5 1 he5 (by rw [hca5]; norm_num), hca5]
    norm_num
  · exact cardRotate_rest 4 5 1 (by rw [he5]; intro h; exact lt_irrefl 0 h.2)

/-- Witness for C4 at `N = 5`, `vw = 1000`. -/
theorem C4_scroll_boundaries_witness :
    1 ≤ 5 ∧
    ((getDeckState 0 5 (0 : ℚ)).rawDeckPos = 0 ∧ exitProgressOf 5 0 = 0 ∧
     cardOpacity 0 5 0 = 1 ∧ cardScale 0 5 0 = 1 ∧ cardX 1000 0 5 0 = 0 ∧
     cardY 0 5 0 = 0 ∧ cardRotate 0 5 0 = 0 ∧
     (∀ i : ℕ, i < 4 → cardOpacity i 5 1 = 0 ∧ cardX 1000 i 5 1 = -(11/10) * 1000) ∧
     (getDeckState 4 5 (1 : ℚ)).rawDeckPos = 0 ∧ exitProgressOf 5 1 = 0 ∧
     cardOpacity 4 5 1 = 1 ∧ cardScale 4 5 1 = 1 ∧ cardX 1000 4 5 1 = 0 ∧
     cardY 4 5 1 = 0 ∧ cardRotate 4 5 1 = 0) :=
  ⟨by norm_num, C4_scroll_boundaries 5 (by norm_num) 1000⟩

/-! ### Claim C6 -/

/-- Claim C6: for every card index, deck size `N ≥ 1` and any scroll value
`v` (including overscroll values outside `[0,1]`), `rawDeckPos` satisfies
exactly one of `< 0`, `= 0`, `> 0`; the exit-phase width (the divisor in
`exitProgress`) is the nonzero constant `1/(4N)`, so every attribute is a
well-defined rational; opacity always lies in `[0,1]`; and scale never
falls below the documented floor `0.88`. -/
theorem C6_output_safety (i N : ℕ) (hN : 1 ≤ N) (v : ℚ) :
    ((getDeckState i N v).rawDeckPos < 0 ∨ (getDeckState i N v).rawDeckPos = 0 ∨
      0 < (getDeckState i N v).rawDeckPos) ∧
    ¬((getDeckState i N v).rawDeckPos < 0 ∧ (getDeckState i N v).rawDeckPos = 0) ∧
    ¬((getDeckState i N v).rawDeckPos < 0 ∧ 0 < (getDeckState i N v).rawDeckPos) ∧
    ¬((getDeckState i N v).rawDeckPos = 0 ∧ 0 < (getDeckState i N v).rawDeckPos) ∧
    activeSegEnd N v - activeExitStart N v = 1 / (4 * (N : ℚ)) ∧
    0 ≤ cardOpacity i N v ∧ cardOpacity i N v ≤ 1 ∧
    88/100 ≤ cardScale i N v := by
  obtain ⟨ho0, ho1⟩ := cardOpacity_bounds (i := i) hN v
  refine ⟨?_, ?_, ?_, ?_, segEnd_sub_exitStart hN v, ho0, ho1,
    cardScale_floor hN v⟩ <;>
    simp only [getDeckState_rawDeckPos] <;> omega

/-- Witness for C6 at `i = 2`, `N = 5`, `v = -1/10` (overscroll). -/
theorem C6_output_safety_witness :
    1 ≤ 5 ∧
    (((getDeckState 2 5 (-(1/10))).rawDeckPos < 0 ∨
      (getDeckState 2 5 (-(1/10))).rawDeckPos = 0 ∨
      0 < (getDeckState 2 5 (-(1/10))).rawDeckPos) ∧
     ¬((getDeckState 2 5 (-(1/10))).rawDeckPos < 0 ∧
       (getDeckState 2 5 (-(1/10))).rawDeckPos = 0) ∧
     ¬((getDeckState 2 5 (-(1/10))).rawDeckPos < 0 ∧
       0 < (getDeckState 2 5 (-(1/10))).rawDeckPos) ∧
     ¬((getDeckState 2 5 (-(1/10))).rawDeckPos = 0 ∧
       0 < (getDeckState 2 5 (-(1/10))).rawDeckPos) ∧
     activeSegEnd 5 (-(1/10)) - activeExitStart 5 (-(1/10)) = 1 / (4 * (5 : ℚ)) ∧
     0 ≤ cardOpacity 2 5 (-(1/10)) ∧ cardOpacity 2 5 (-(1/10)) ≤ 1 ∧
     88/100 ≤ cardScale 2 5 (-(1/10))) :=
  ⟨by norm_num, C6_output_safety 2 5 (by norm_num) (-(1/10))⟩

/-! ### Claim C7 -/

/-- Claim C7: for a card whose own segment `[i/N, (i+1)/N)` contains `v`,
the inner content offset is
`-min(localSegmentProgress / EXIT_THRESHOLD, 1) * max(0, h - vh)`;
outside the card's own segment the offset is 0; a non-positive (negative
or missing) content height yields offset 0, and an out-of-range index
reads as height 0. -/
theorem C7_content_offset (hs : List ℚ) (vh : ℚ) (hvh : 0 ≤ vh)
    (i N : ℕ) (hN : 1 ≤ N) (v : ℚ) :
    ((i : ℚ) / (N : ℚ) ≤ v ∧ v < ((i : ℚ) + 1) / (N : ℚ) →
      contentY hs vh i N v =
        -(min (((v - (i : ℚ) / (N : ℚ)) /
            (((i : ℚ) + 1) / (N : ℚ) - (i : ℚ) / (N : ℚ))) / EXIT_THRESHOLD) 1) *
          max 0 (lookupHeight hs i - vh)) ∧
    (v < (i : ℚ) / (N : ℚ) ∨ ((i : ℚ) + 1) / (N : ℚ) ≤ v →
      contentY hs vh i N v = 0) ∧
    (lookupHeight hs i ≤ 0 → contentY hs vh i N v = 0) ∧
    (hs.length ≤ i → lookupHeight hs i = 0) := by
  refine ⟨?_, ?_, ?_, ?_⟩
  · intro h
    unfold contentY
    rw [if_neg (by intro hc; rcases hc with hc | hc <;> linarith [h.1, h.2])]
  · intro h
    unfold contentY
    rw [if_pos h]
  · intro h
    have hm : max 0 (lookupHeight hs i - vh) = 0 := max_eq_left (by linarith)
    unfold contentY
    dsimp only
    split_ifs with hc
    · rfl
    · rw [hm, mul_zero]
  · intro h
    unfold lookupHeight jsOrZero
    rw [List.get?_eq_none.mpr h]

/-- Witness for C7 at `N = 5`, `i = 0`, `v = 1/10`, heights `[700]`,
`vh = 600`: all three conditional conclusions are exercised across the
inputs of the applications. -/
theorem C7_content_offset_witness :
    (0 : ℚ) ≤ 600 ∧ 1 ≤ 5 ∧
    ((0 : ℚ) / (5 : ℚ) ≤ 1/10 ∧ (1/10 : ℚ) < ((0 : ℚ) + 1) / (5 : ℚ)) ∧
    contentY [700] 600 0 5 (1/10) =
      -(min ((((1/10 : ℚ) - (0 : ℚ) / (5 : ℚ)) /
          (((0 : ℚ) + 1) / (5 : ℚ) - (0 : ℚ) / (5 : ℚ))) / EXIT_THRESHOLD) 1) *
        max 0 (lookupHeight [700] 0 - 600) :=
  ⟨by norm_num, by norm_num, by norm_num,
   (C7_content_offset [700] 600 (by norm_num) 0 5 (by norm_num) (1/10)).1
     (by norm_num)⟩

/-! ### Claim C8 -/

/-- Claim C8: exited cards get z-index 0 and sit strictly below every
non-exited card; a queued (non-exiting) card gets z-index
`N - rawDeckPos`, so cards nearer to the active card are higher; while
the active card's `exitProgress > 0`, the exiting card gets z-index
`N + 1`, strictly above every other card. -/
theorem C8_stacking_order (i N : ℕ) (hN : 1 ≤ N) (hi : i < N) (v : ℚ) :
    ((getDeckState i N v).rawDeckPos < 0 →
      zIndexOf i N v = 0 ∧
      ∀ j : ℕ, j < N → 0 ≤ (getDeckState j N v).rawDeckPos →
        0 < zIndexOf j N v) ∧
    (0 ≤ (getDeckState i N v).rawDeckPos →
      ¬((i : ℤ) = currentActiveOf N v ∧ 0 < exitProgressOf N v) →
      zIndexOf i N v = (N : ℤ) - (getDeckState i N v).rawDeckPos) ∧
    ((i : ℤ) = currentActiveOf N v → 0 < exitProgressOf N v →
      zIndexOf i N v = (N : ℤ) + 1 ∧
      ∀ j : ℕ, j < N → j ≠ i → zIndexOf j N v < (N : ℤ) + 1) := by
  simp only [getDeckState_rawDeckPos]
  refine ⟨?_, ?_, ?_⟩
  · intro hraw
    refine ⟨zIndexOf_exited i N v hraw, ?_⟩
    intro j hj hrawj
    by_cases hx : (j : ℤ) = currentActiveOf N v ∧ 0 < exitProgressOf N v
    · rw [zIndexOf_exiting j N v hx.1 hx.2]
      omega
    · rw [zIndexOf_queued j N v hrawj hx]
      omega
  · intro hraw hx
    exact zIndexOf_queued i N v hraw hx
  · intro hi' he
    refine ⟨zIndexOf_exiting i N v hi' he, ?_⟩
    intro j hj hji
    by_cases hrawj : (j : ℤ) - currentActiveOf N v < 0
    · rw [zIndexOf_exited j N v hrawj]
      omega
    · push_neg at hrawj
      have hjca : (j : ℤ) ≠ currentActiveOf N v := by
        intro hc
        apply hji
        have : (j : ℤ) = (i : ℤ) := by omega
        exact_mod_cast this
      rw [zIndexOf_queued j N v hrawj (by intro hc; exact hjca hc.1)]
      omega

/-- Witness for C8 at `i = 0`, `N = 5`, `v = 19/100` (card 0 exiting). -/
theorem C8_stacking_order_witness :
    1 ≤ 5 ∧ 0 < 5 ∧ ((0 : ℤ) = currentActiveOf 5 (19/100)) ∧
    0 < exitProgressOf 5 (19/100) ∧
    (zIndexOf 0 5 (19/100) = (5 : ℤ) + 1 ∧
     ∀ j : ℕ, j < 5 → j ≠ 0 → zIndexOf j 5 (19/100) < (5 : ℤ) + 1) :=
  ⟨by norm_num, by norm_num, by norm_num [currentActiveOf],
   by norm_num [exitProgressOf, activeExitStart, activeSegStart, activeSegEnd,
     currentActiveOf, EXIT_THRESHOLD],
   (C8_stacking_order 0 5 (by norm_num) (by norm_num) (19/100)).2.2
     (by norm_num [currentActiveOf])
     (by norm_num [exitProgressOf, activeExitStart, activeSegStart, activeSegEnd,
       currentActiveOf, EXIT_THRESHOLD])⟩

/-! ### The `activeIndex` state machine -/

lemma stepActive_bounds {N : ℕ} (hN : 1 ≤ N) {a : ℤ} (ha0 : 0 ≤ a)
    (ha1 : a ≤ (N : ℤ) - 1) (v : ℚ) :
    0 ≤ stepActive N a v ∧ stepActive N a v ≤ (N : ℤ) - 1 := by
  unfold stepActive newActive
  dsimp only
  have hm : min ⌊v * (N : ℚ)⌋ ((N : ℤ) - 1) ≤ (N : ℤ) - 1 := min_le_right _ _
  split_ifs with h
  · exact ⟨h.1, hm⟩
  · exact ⟨ha0, ha1⟩

lemma foldl_stepActive_bounds {N : ℕ} (hN : 1 ≤ N) (vs : List ℚ) :
    ∀ a : ℤ, 0 ≤ a → a ≤ (N : ℤ) - 1 →
      0 ≤ vs.foldl (stepActive N) a ∧ vs.foldl (stepActive N) a ≤ (N : ℤ) - 1 := by
  induction vs with
  | nil => intro a h0 h1; exact ⟨h0, h1⟩
  | cons v vs ih =>
    intro a h0 h1
    simp only [List.foldl_cons]
    obtain ⟨s0, s1⟩ := stepActive_bounds hN h0 h1 v
    exact ih _ s0 s1

lemma runActive_bounds {N : ℕ} (hN : 1 ≤ N) (vs : List ℚ) :
    0 ≤ runActive N vs ∧ runActive N vs ≤ (N : ℤ) - 1 :=
  foldl_stepActive_bounds hN vs 0 le_rfl (by omega)

lemma stepActive_of_le_one {N : ℕ} (hN : N ≤ 1) (v : ℚ) :
    stepActive N 0 v = 0 := by
  unfold stepActive newActive
  dsimp only
  have hm : min ⌊v * (N : ℚ)⌋ ((N : ℤ) - 1) ≤ (N : ℤ) - 1 := min_le_right _ _
  split_ifs with h
  · exfalso; omega
  · rfl

lemma runActive_of_le_one {N : ℕ} (hN : N ≤ 1) (vs : List ℚ) :
    runActive N vs = 0 := by
  unfold runActive
  induction vs with
  | nil => rfl
  | cons v vs ih =>
    simp only [List.foldl_cons, stepActive_of_le_one hN v]
    exact ih

/-! ### Claim C9 -/

/-- Claim C9: the normalized progress value `activeIndex / (N-1)` (or 0
when `N ≤ 1`) always lies in `[0,1]`, and it is what the
`onProgressChange` effect emits whenever `N > 1`; for `N ≤ 1` the
`activeIndex` state never changes from 0 (so no change event ever
fires), and the associated progress value is 0. -/
theorem C9_normalized_progress (N : ℕ) (hN : 1 ≤ N) (vs : List ℚ) :
    0 ≤ progressOf N (runActive N vs) ∧ progressOf N (runActive N vs) ≤ 1 ∧
    (1 < N →
      emitProgress N (runActive N vs) = some (progressOf N (runActive N vs))) ∧
    (N ≤ 1 → runActive N vs = 0 ∧ progressOf N (runActive N vs) = 0) := by
  obtain ⟨h0, h1⟩ := runActive_bounds hN vs
  refine ⟨?_, ?_, ?_, ?_⟩
  · unfold progressOf
    split_ifs with h
    · have hd : (0 : ℚ) < (N : ℚ) - 1 := by
        have : (1 : ℚ) < (N : ℚ) := by exact_mod_cast h
        linarith
      have ha : (0 : ℚ) ≤ (runActive N vs : ℚ) := by exact_mod_cast h0
      positivity
    · exact le_refl 0
  · unfold progressOf
    split_ifs with h
    · have hd : (0 : ℚ) < (N : ℚ) - 1 := by
        have : (1 : ℚ) < (N : ℚ) := by exact_mod_cast h
        linarith
      rw [div_le_one hd]
      have : (runActive N vs : ℚ) ≤ ((N : ℤ) : ℚ) - 1 := by exact_mod_cast h1
      push_cast at this ⊢
      linarith
    · exact zero_le_one
  · intro h
    unfold emitProgress progressOf
    rw [if_pos h, if_pos h]
  · intro h
    refine ⟨runActive_of_le_one h vs, ?_⟩
    unfold progressOf
    rw [if_neg (by omega)]

/-- Witness for C9 at `N = 5` and events `[3/10, 1/2]`. -/
theorem C9_normalized_progress_witness :
    1 ≤ 5 ∧
    (0 ≤ progressOf 5 (runActive 5 [3/10, 1/2]) ∧
     progressOf 5 (runActive 5 [3/10, 1/2]) ≤ 1 ∧
     (1 < 5 → emitProgress 5 (runActive 5 [3/10, 1/2]) =
        some (progressOf 5 (runActive 5 [3/10, 1/2]))) ∧
     (5 ≤ 1 → runActive 5 [3/10, 1/2] = 0 ∧
        progressOf 5 (runActive 5 [3/10, 1/2]) = 0)) :=
  ⟨by norm_num, C9_normalized_progress 5 (by norm_num) [3/10, 1/2]⟩

/-! ### Claim C10 -/

/-- Claim C10: the `activeIndex` state reported by `CardStack` stays in
`[0, N-1]` across any sequence of scroll events (including negative
overscroll values), because the update is guarded by `newActive ≥ 0` and
min-clamped to `N-1` — even though `getDeckState`'s internal
`currentActive` has no lower clamp and is negative for `v < 0`
(e.g. `-1` at `N = 5`, `v = -1/5`). -/
theorem C10_reported_index_in_range (N : ℕ) (hN : 1 ≤ N) (vs : List ℚ) :
    0 ≤ runActive N vs ∧ runActive N vs ≤ (N : ℤ) - 1 ∧
    (getDeckState 0 5 (-(1/5))).currentActive = -1 := by
  obtain ⟨h0, h1⟩ := runActive_bounds hN vs
  refine ⟨h0, h1, ?_⟩
  simp only [getDeckState_currentActive]
  norm_num [currentActiveOf]

/-- Witness for C10 at `N = 5` and events `[-(1/5), 7/10]`. -/
theorem C10_reported_index_in_range_witness :
    1 ≤ 5 ∧
    (0 ≤ runActive 5 [-(1/5), 7/10] ∧
     runActive 5 [-(1/5), 7/10] ≤ (5 : ℤ) - 1 ∧
     (getDeckState 0 5 (-(1/5))).currentActive = -1) :=
  ⟨by norm_num, C10_reported_index_in_range 5 (by norm_num) [-(1/5), 7/10]⟩

/-! ### Claim C5: continuity at interior segment boundaries -/

lemma abs_max_right_le (a x y : ℚ) : |max a x - max a y| ≤ |x - y| := by
  rw [max_comm a x, max_comm a y]
  exact abs_max_sub_max_le_abs x y a

/-- All four continuous transforms depend on `v` only via
`(currentActive, exitProgress)`. -/
lemma cardX_congr (vw : ℚ) (i N : ℕ) {v w : ℚ}
    (h1 : currentActiveOf N v = currentActiveOf N w)
    (h2 : exitProgressOf N v = exitProgressOf N w) :
    cardX vw i N v = cardX vw i N w := by
  simp only [cardX, getDeckState_rawDeckPos, getDeckState_currentActive,
    getDeckState_exitProgress, h1, h2]

lemma cardY_congr (i N : ℕ) {v w : ℚ}
    (h1 : currentActiveOf N v = currentActiveOf N w)
    (h2 : exitProgressOf N v = exitProgressOf N w) :
    cardY i N v = cardY i N w := by
  simp only [cardY, getDeckState_rawDeckPos, getDeckState_currentActive,
    getDeckState_exitProgress, h1, h2]

lemma cardScale_congr (i N : ℕ) {v w : ℚ}
    (h1 : currentActiveOf N v = currentActiveOf N w)
    (h2 : exitProgressOf N v = exitProgressOf N w) :
    cardScale i N v = cardScale i N w := by
  simp only [cardScale, getDeckState_rawDeckPos, getDeckState_currentActive,
    getDeckState_exitProgress, h1, h2]

lemma cardOpacity_congr (i N : ℕ) {v w : ℚ}
    (h1 : currentActiveOf N v = currentActiveOf N w)
    (h2 : exitProgressOf N v = exitProgressOf N w) :
    cardOpacity i N v = cardOpacity i N w := by
  simp only [cardOpacity, getDeckState_rawDeckPos, getDeckState_currentActive,
    getDeckState_exitProgress, h1, h2]

/-- Just left of the interior boundary `j/N` (within `1/(8N)` of it), the
previous card `j-1` is active and deep in its exit phase, with
`1 - exitProgress = 4N * (j/N - v)`. -/
lemma left_window_state {N j : ℕ} (hN : 1 ≤ N) (hj1 : 1 ≤ j) (hjN : j < N)
    {v : ℚ} (h1 : (j : ℚ) / (N : ℚ) - 1 / (8 * (N : ℚ)) < v)
    (h2 : v < (j : ℚ) / (N : ℚ)) :
    currentActiveOf N v = (j : ℤ) - 1 ∧
    0 < exitProgressOf N v ∧
    1 - exitProgressOf N v = 4 * (N : ℚ) * ((j : ℚ) / (N : ℚ) - v) := by
  have hNp := nposQ hN
  have h8N : (0 : ℚ) < 8 * (N : ℚ) := by positivity
  have h4N : (0 : ℚ) < 4 * (N : ℚ) := by positivity
  have hjc : ((j - 1 : ℕ) : ℚ) = (j : ℚ) - 1 := by
    push_cast [Nat.cast_sub hj1]
    ring
  have h18 : 1 / (8 * (N : ℚ)) < 1 / (N : ℚ) :=
    one_div_lt_one_div_of_lt hNp (by linarith)
  have hca : currentActiveOf N v = ((j - 1 : ℕ) : ℤ) := by
    apply currentActiveOf_eq hN (by omega)
    · rw [hjc]
      have hd : ((j : ℚ) - 1) / (N : ℚ) = (j : ℚ) / (N : ℚ) - 1 / (N : ℚ) := by
        field_simp
      rw [hd]
      linarith
    · rw [hjc]
      have hd : ((j : ℚ) - 1 + 1) / (N : ℚ) = (j : ℚ) / (N : ℚ) := by
        ring_nf
      rw [hd]
      exact h2
  have hca' : currentActiveOf N v = (j : ℤ) - 1 := by
    rw [hca]
    omega
  have hase : activeSegEnd N v = (j : ℚ) / (N : ℚ) := by
    unfold activeSegEnd
    rw [hca']
    push_cast
    ring_nf
  have hwidth := segEnd_sub_exitStart hN v
  have haes : activeExitStart N v = (j : ℚ) / (N : ℚ) - 1 / (4 * (N : ℚ)) := by
    rw [hase] at hwidth
    linarith
  have h148 : 1 / (8 * (N : ℚ)) < 1 / (4 * (N : ℚ)) :=
    one_div_lt_one_div_of_lt h4N (by linarith)
  have hc1 : activeExitStart N v ≤ v := by
    rw [haes]
    linarith
  have hc2 : v < activeSegEnd N v := by
    rw [hase]
    exact h2
  have he_eq : exitProgressOf N v =
      (v - activeExitStart N v) / (activeSegEnd N v - activeExitStart N v) := by
    unfold exitProgressOf
    rw [if_pos ⟨hc1, hc2⟩]
  refine ⟨hca', ?_, ?_⟩
  · rw [he_eq]
    apply div_pos
    · rw [haes]
      linarith
    · exact exitWindow_pos hN v
  · rw [he_eq, haes, hase]
    have hden : (j : ℚ) / (N : ℚ) - ((j : ℚ) / (N : ℚ) - 1 / (4 * (N : ℚ))) =
        1 / (4 * (N : ℚ)) := by ring
    rw [hden, div_div_eq_mul_div, div_one]
    have hquarter : 4 * (N : ℚ) * (1 / (4 * (N : ℚ))) = 1 := by
      field_simp
    linear_combination -hquarter

/-- Just right of (and at) the interior boundary `j/N` (within `1/(8N)`),
card `j` is active and still in its content phase. -/
lemma right_window_state {N j : ℕ} (hN : 1 ≤ N) (hjN : j < N)
    {v : ℚ} (h1 : (j : ℚ) / (N : ℚ) ≤ v)
    (h2 : v < (j : ℚ) / (N : ℚ) + 1 / (8 * (N : ℚ))) :
    currentActiveOf N v = (j : ℤ) ∧ exitProgressOf N v = 0 := by
  have hNp := nposQ hN
  have h18 : 1 / (8 * (N : ℚ)) < 1 / (N : ℚ) :=
    one_div_lt_one_div_of_lt hNp (by linarith)
  have hca : currentActiveOf N v = (j : ℤ) := by
    apply currentActiveOf_eq hN hjN h1
    have hd : ((j : ℚ) + 1) / (N : ℚ) = (j : ℚ) / (N : ℚ) + 1 / (N : ℚ) := by
      field_simp
    rw [hd]
    linarith
  have hase : activeSegEnd N v = (j : ℚ) / (N : ℚ) + 1 / (N : ℚ) := by
    unfold activeSegEnd
    rw [hca]
    field_simp
  have hwidth := segEnd_sub_exitStart hN v
  have haes : activeExitStart N v =
      (j : ℚ) / (N : ℚ) + 1 / (N : ℚ) - 1 / (4 * (N : ℚ)) := by
    rw [hase] at hwidth
    linarith
  have h148 : 1 / (8 * (N : ℚ)) < 1 / (4 * (N : ℚ)) :=
    one_div_lt_one_div_of_lt (by positivity) (by linarith)
  refine ⟨hca, ?_⟩
  unfold exitProgressOf
  rw [if_neg]
  intro hc
  rw [haes] at hc
  have key : 1 / (N : ℚ) - 1 / (4 * (N : ℚ)) - 1 / (8 * (N : ℚ)) =
      5 / (8 * (N : ℚ)) := by
    field_simp
    ring
  have hpos : (0 : ℚ) < 5 / (8 * (N : ℚ)) := by positivity
  linarith [hc.1]

/-- Linear modulus bound to the left of the interior boundary `j/N`:
within the last `1/(8N)` of card `j-1`'s segment, each of the four
continuous transforms differs from its boundary value by at most
`4N(1.1vw + 12) * (j/N - v)`. -/
lemma left_window_bound (vw : ℚ) (hvw : 0 ≤ vw) {N j : ℕ} (hN : 1 ≤ N)
    (hj1 : 1 ≤ j) (hjN : j < N) (i : ℕ) {v : ℚ}
    (h1 : (j : ℚ) / (N : ℚ) - 1 / (8 * (N : ℚ)) < v)
    (h2 : v < (j : ℚ) / (N : ℚ)) :
    |cardX vw i N v - cardX vw i N ((j : ℚ) / (N : ℚ))| ≤
      4 * (N : ℚ) * ((11/10) * vw + 12) * ((j : ℚ) / (N : ℚ) - v) ∧
    |cardY i N v - cardY i N ((j : ℚ) / (N : ℚ))| ≤
      4 * (N : ℚ) * ((11/10) * vw + 12) * ((j : ℚ) / (N : ℚ) - v) ∧
    |cardScale i N v - cardScale i N ((j : ℚ) / (N : ℚ))| ≤
      4 * (N : ℚ) * ((11/10) * vw + 12) * ((j : ℚ) / (N : ℚ) - v) ∧
    |cardOpacity i N v - cardOpacity i N ((j : ℚ) / (N : ℚ))| ≤
      4 * (N : ℚ) * ((11/10) * vw + 12) * ((j : ℚ) / (N : ℚ) - v) := by
  have hNp := nposQ hN
  obtain ⟨hcaL, heL, hsub⟩ := left_window_state hN hj1 hjN h1 h2
  have h8 : (0 : ℚ) < 1 / (8 * (N : ℚ)) := by positivity
  have hv0lt : (j : ℚ) / (N : ℚ) < (j : ℚ) / (N : ℚ) + 1 / (8 * (N : ℚ)) := by
    linarith
  obtain ⟨hcaR, heR⟩ :=
    right_window_state hN hjN (le_refl ((j : ℚ) / (N : ℚ))) hv0lt
  have he1 : exitProgressOf N v < 1 := exitProgress_lt_one hN v
  have h1me : (0 : ℚ) ≤ 1 - exitProgressOf N v := by linarith
  have h0le : (0 : ℚ) ≤ (j : ℚ) / (N : ℚ) - v := by linarith
  have hfac : (0 : ℚ) ≤ (11/10) * vw + 12 := by
    have := mul_nonneg (by norm_num : (0 : ℚ) ≤ 11/10) hvw
    linarith
  have hRHS : (0 : ℚ) ≤
      4 * (N : ℚ) * ((11/10) * vw + 12) * ((j : ℚ) / (N : ℚ) - v) :=
    mul_nonneg (mul_nonneg (mul_nonneg (by norm_num) hNp.le) hfac) h0le
  have hstep : ∀ c : ℚ, 0 ≤ c → c ≤ (11/10) * vw + 12 →
      c * (1 - exitProgressOf N v) ≤
        4 * (N : ℚ) * ((11/10) * vw + 12) * ((j : ℚ) / (N : ℚ) - v) := by
    intro c hc0 hc1
    rw [hsub]
    have h4n : (0 : ℚ) ≤ 4 * (N : ℚ) * ((j : ℚ) / (N : ℚ) - v) :=
      mul_nonneg (mul_nonneg (by norm_num) hNp.le) h0le
    calc c * (4 * (N : ℚ) * ((j : ℚ) / (N : ℚ) - v))
        ≤ ((11/10) * vw + 12) * (4 * (N : ℚ) * ((j : ℚ) / (N : ℚ) - v)) :=
          mul_le_mul_of_nonneg_right hc1 h4n
      _ = 4 * (N : ℚ) * ((11/10) * vw + 12) * ((j : ℚ) / (N : ℚ) - v) := by
          ring
  rcases lt_trichotomy (i : ℤ) ((j : ℤ) - 1) with hi | hi | hi
  · -- exited on both sides of the boundary
    have hL : (i : ℤ) - currentActiveOf N v < 0 := by rw [hcaL]; omega
    have hR : (i : ℤ) - currentActiveOf N ((j : ℚ) / (N : ℚ)) < 0 := by
      rw [hcaR]; omega
    refine ⟨?_, ?_, ?_, ?_⟩
    · rw [cardX_exited vw i N v hL, cardX_exited vw i N _ hR, sub_self,
        abs_zero]
      exact hRHS
    · rw [cardY_exited i N v hL, cardY_exited i N _ hR, sub_self, abs_zero]
      exact hRHS
    · rw [cardScale_exited i N v hL, cardScale_exited i N _ hR, sub_self,
        abs_zero]
      exact hRHS
    · rw [cardOpacity_exited i N v hL, cardOpacity_exited i N _ hR, sub_self,
        abs_zero]
      exact hRHS
  · -- the exiting card `j-1`: exiting on the left, exited at the boundary
    have hiL : (i : ℤ) = currentActiveOf N v := by rw [hcaL]; omega
    have hR : (i : ℤ) - currentActiveOf N ((j : ℚ) / (N : ℚ)) < 0 := by
      rw [hcaR]; omega
    refine ⟨?_, ?_, ?_, ?_⟩
    · rw [cardX_exiting vw i N v hiL heL, cardX_exited vw i N _ hR]
      have hx : -(exitProgressOf N v) * (11/10) * vw - -(11/10) * vw =
          (11/10) * vw * (1 - exitProgressOf N v) := by ring
      rw [hx, abs_of_nonneg (mul_nonneg (mul_nonneg (by norm_num) hvw) h1me)]
      exact hstep _ (mul_nonneg (by norm_num) hvw) (by linarith)
    · rw [cardY_exiting i N v hiL heL, cardY_exited i N _ hR, sub_self,
        abs_zero]
      exact hRHS
    · rw [cardScale_exiting i N v hiL heL, cardScale_exited i N _ hR]
      have hx : 1 - exitProgressOf N v * (5/100) - 95/100 =
          (5/100) * (1 - exitProgressOf N v) := by ring
      rw [hx, abs_of_nonneg (mul_nonneg (by norm_num) h1me)]
      exact hstep _ (by norm_num) (by linarith)
    · rw [cardOpacity_exiting i N v hiL heL, cardOpacity_exited i N _ hR]
      have hx : 1 - exitProgressOf N v - 0 =
          1 * (1 - exitProgressOf N v) := by ring
      rw [hx, abs_of_nonneg (by linarith)]
      exact hstep 1 (by norm_num) (by linarith)
  · -- queued: shifting forward on the left, settled after the boundary
    have hrawL : 0 < (i : ℤ) - currentActiveOf N v := by rw [hcaL]; omega
    have hrawR : 0 ≤ (i : ℤ) - currentActiveOf N ((j : ℚ) / (N : ℚ)) := by
      rw [hcaR]; omega
    refine ⟨?_, ?_, ?_, ?_⟩
    · rw [cardX_shift vw i N v heL hrawL, cardX_noexit vw i N _ heR hrawR,
        hcaL, hcaR]
      simp only [STACK_GAP_X]
      push_cast
      have hx : ((i : ℚ) - ((j : ℚ) - 1) - exitProgressOf N v) * 12 -
          ((i : ℚ) - (j : ℚ)) * 12 = 12 * (1 - exitProgressOf N v) := by ring
      rw [hx, abs_of_nonneg (mul_nonneg (by norm_num) h1me)]
      exact hstep 12 (by norm_num) (by linarith)
    · rw [cardY_shift i N v heL hrawL, cardY_noexit i N _ heR hrawR,
        hcaL, hcaR]
      simp only [STACK_GAP_Y]
      push_cast
      have hx : ((i : ℚ) - ((j : ℚ) - 1) - exitProgressOf N v) * 10 -
          ((i : ℚ) - (j : ℚ)) * 10 = 10 * (1 - exitProgressOf N v) := by ring
      rw [hx, abs_of_nonneg (mul_nonneg (by norm_num) h1me)]
      exact hstep 10 (by norm_num) (by linarith)
    · rw [cardScale_shift i N v heL hrawL, cardScale_noexit i N _ heR hrawR,
        hcaL, hcaR]
      simp only [STACK_SCALE_STEP]
      refine le_trans (abs_max_right_le _ _ _) ?_
      push_cast
      have hx : 1 - ((i : ℚ) - ((j : ℚ) - 1) - exitProgressOf N v) * (3/100) -
          (1 - ((i : ℚ) - (j : ℚ)) * (3/100)) =
          -((3/100) * (1 - exitProgressOf N v)) := by ring
      rw [hx, abs_neg, abs_of_nonneg (mul_nonneg (by norm_num) h1me)]
      exact hstep _ (by norm_num) (by linarith)
    · rw [cardOpacity_shift i N v heL hrawL, cardOpacity_noexit i N _ heR hrawR,
        hcaL, hcaR]
      simp only [STACK_OPACITY_STEP]
      refine le_trans (abs_max_right_le _ _ _) ?_
      push_cast
      have hx : 1 - ((i : ℚ) - ((j : ℚ) - 1) - exitProgressOf N v) * (15/100) -
          (1 - ((i : ℚ) - (j : ℚ)) * (15/100)) =
          -((15/100) * (1 - exitProgressOf N v)) := by ring
      rw [hx, abs_neg, abs_of_nonneg (mul_nonneg (by norm_num) h1me)]
      exact hstep _ (by norm_num) (by linarith)

/-- Claim C5: the four continuous attribute outputs (horizontal offset,
vertical offset, scale, opacity) are continuous in `v` at every interior
segment boundary `j/N` (`1 ≤ j ≤ N-1`): for every `ε > 0` there is a
`δ > 0` bounding the change on both sides of the boundary, so the exiting
card converges to the exited state, each queued card's shifted position
converges to its post-boundary deck position, and — the mapping being a
pure function of `v` — scrolling back re-derives the same outputs with no
discontinuous jump.  Moreover at every `v ∈ [0,1]` exactly one card has
`rawDeckPos = 0` (no gap or double-active frame). -/
theorem C5_boundary_continuity (vw ε : ℚ) (hvw : 0 ≤ vw) (hε : 0 < ε)
    (i j N : ℕ) (hN : 1 ≤ N) (hj1 : 1 ≤ j) (hjN : j < N) :
    (∃ δ : ℚ, 0 < δ ∧ ∀ v : ℚ, |v - (j : ℚ) / (N : ℚ)| < δ →
      |cardX vw i N v - cardX vw i N ((j : ℚ) / (N : ℚ))| ≤ ε ∧
      |cardY i N v - cardY i N ((j : ℚ) / (N : ℚ))| ≤ ε ∧
      |cardScale i N v - cardScale i N ((j : ℚ) / (N : ℚ))| ≤ ε ∧
      |cardOpacity i N v - cardOpacity i N ((j : ℚ) / (N : ℚ))| ≤ ε) ∧
    (∀ v : ℚ, 0 ≤ v → v ≤ 1 →
      ∃! a : ℕ, a < N ∧ (getDeckState a N v).rawDeckPos = 0) := by
  have hNp := nposQ hN
  have hfac : (0 : ℚ) < (11/10) * vw + 12 := by
    have := mul_nonneg (by norm_num : (0 : ℚ) ≤ 11/10) hvw
    linarith
  have hB : (0 : ℚ) < 4 * (N : ℚ) * ((11/10) * vw + 12) :=
    mul_pos (mul_pos (by norm_num) hNp) hfac
  have h8 : (0 : ℚ) < 1 / (8 * (N : ℚ)) := by positivity
  constructor
  · refine ⟨min (1 / (8 * (N : ℚ))) (ε / (4 * (N : ℚ) * ((11/10) * vw + 12))),
      lt_min h8 (div_pos hε hB), ?_⟩
    intro v hv
    rcases lt_or_le v ((j : ℚ) / (N : ℚ)) with hlt | hge
    · have habs : (j : ℚ) / (N : ℚ) - v <
          min (1 / (8 * (N : ℚ))) (ε / (4 * (N : ℚ) * ((11/10) * vw + 12))) := by
        rw [abs_sub_comm, abs_of_nonneg (by linarith)] at hv
        exact hv
      have h1 : (j : ℚ) / (N : ℚ) - 1 / (8 * (N : ℚ)) < v := by
        have := lt_of_lt_of_le habs (min_le_left _ _)
        linarith
      obtain ⟨bX, bY, bS, bO⟩ := left_window_bound vw hvw hN hj1 hjN i h1 hlt
      have hend : 4 * (N : ℚ) * ((11/10) * vw + 12) *
          ((j : ℚ) / (N : ℚ) - v) ≤ ε := by
        have hlt2 := lt_of_lt_of_le habs (min_le_right _ _)
        have hmul := mul_le_mul_of_nonneg_left hlt2.le hB.le
        have heq : 4 * (N : ℚ) * ((11/10) * vw + 12) *
            (ε / (4 * (N : ℚ) * ((11/10) * vw + 12))) = ε := by
          field_simp
          ring
        linarith
      exact ⟨bX.trans hend, bY.trans hend, bS.trans hend, bO.trans hend⟩
    · have habs2 : v - (j : ℚ) / (N : ℚ) <
          min (1 / (8 * (N : ℚ))) (ε / (4 * (N : ℚ) * ((11/10) * vw + 12))) := by
        rw [abs_of_nonneg (by linarith)] at hv
        exact hv
      have h2 : v < (j : ℚ) / (N : ℚ) + 1 / (8 * (N : ℚ)) := by
        have := lt_of_lt_of_le habs2 (min_le_left _ _)
        linarith
      obtain ⟨hcaV, heV⟩ := right_window_state hN hjN hge h2
      obtain ⟨hca0, he0⟩ :=
        right_window_state hN hjN (le_refl ((j : ℚ) / (N : ℚ))) (by linarith)
      have hc1 : currentActiveOf N v = currentActiveOf N ((j : ℚ) / (N : ℚ)) := by
        rw [hcaV, hca0]
      have hc2 : exitProgressOf N v = exitProgressOf N ((j : ℚ) / (N : ℚ)) := by
        rw [heV, he0]
      rw [cardX_congr vw i N hc1 hc2, cardY_congr i N hc1 hc2,
        cardScale_congr i N hc1 hc2, cardOpacity_congr i N hc1 hc2]
      simp only [sub_self, abs_zero]
      exact ⟨hε.le, hε.le, hε.le, hε.le⟩
  · intro v h0 h1v
    obtain ⟨hge0, hle⟩ := currentActiveOf_mem hN h0
    refine ⟨(currentActiveOf N v).toNat, ⟨?_, ?_⟩, ?_⟩
    · omega
    · simp only [getDeckState_rawDeckPos]
      omega
    · intro b hb
      simp only [getDeckState_rawDeckPos] at hb
      omega

/-- Witness for C5 at `vw = 1000`, `ε = 1`, `i = 0`, boundary `j/N = 1/5`. -/
theorem C5_boundary_continuity_witness :
    (0 : ℚ) ≤ 1000 ∧ (0 : ℚ) < 1 ∧ 1 ≤ 5 ∧ 1 ≤ 1 ∧ 1 < 5 ∧
    ((∃ δ : ℚ, 0 < δ ∧ ∀ v : ℚ, |v - ((1 : ℕ) : ℚ) / ((5 : ℕ) : ℚ)| < δ →
      |cardX 1000 0 5 v - cardX 1000 0 5 (((1 : ℕ) : ℚ) / ((5 : ℕ) : ℚ))| ≤ 1 ∧
      |cardY 0 5 v - cardY 0 5 (((1 : ℕ) : ℚ) / ((5 : ℕ) : ℚ))| ≤ 1 ∧
      |cardScale 0 5 v - cardScale 0 5 (((1 : ℕ) : ℚ) / ((5 : ℕ) : ℚ))| ≤ 1 ∧
      |cardOpacity 0 5 v - cardOpacity 0 5 (((1 : ℕ) : ℚ) / ((5 : ℕ) : ℚ))| ≤ 1) ∧
     (∀ v : ℚ, 0 ≤ v → v ≤ 1 →
      ∃! a : ℕ, a < 5 ∧ (getDeckState a 5 v).rawDeckPos = 0)) :=
  ⟨by norm_num, by norm_num, by norm_num, by norm_num, by norm_num,
   C5_boundary_continuity 1000 1 (by norm_num) (by norm_num) 0 1 5
     (by norm_num) (by norm_num) (by norm_num)⟩

end CardStack
